import Mathlib

/-!
Verification of the EDUNET study planner against its specification.

This file gives a shallow embedding of the Python sources
`edunet_auth.py` and `edunet_study_planner.py`:

* the credential store (`register_user`, `login_user`) is modelled over an
  in-memory list of `(email, password_hash)` records, parameterised by the
  hash function (the source calls out to `hashlib.sha256`, an external
  library, so the hash is a parameter of the model);
* the per-user task store is modelled over an association list from file
  names to column-major data frames (`DataFrame`), mirroring the pandas
  `read_csv` / `to_csv` round trip including CSV type re-inference;
* dates are modelled as day numbers since 1970-01-01 (`civilFromDays` /
  `daysFromCivil` implement the standard Gregorian conversion), and the
  current instant `datetime.now()` as a second count since the epoch.

Modelling notes (deliberate idealisations, called out where they matter):
* string functions (`toLower`, digit tests) are ASCII-faithful; the claims
  exercise only ASCII inputs;
* `pandas.to_datetime` / `datetime.fromisoformat` are modelled as an
  ISO `YYYY-MM-DD` parser (`parseDate`); other accepted spellings of dates
  are not exercised by the claims;
* an integer-valued cell inside a date column is treated as unparseable by
  the date normaliser (real pandas would reinterpret it as an epoch offset;
  no claim exercises this path);
* floating point is idealised by `Rat`; Python's `round` half-to-even
  behaviour is implemented exactly on rationals;
* `read_csv` type re-inference is modelled for NA sentinels, integers
  (widening to float when missing values are present), booleans and decimal
  floats; IEEE infinity spellings and whitespace-padded numerics are not
  converted by the model, and the round-trip precondition `wfTasks`
  excludes such cells, so no theorem asserts their round trip.
-/

/-! ## Cell values

A pandas cell as it occurs in this program: missing (`na`, i.e. NaN/None/NaT),
a string, an integer, a float (idealised as an exact rational), a boolean, or
a calendar date (day number since 1970-01-01). Floats and booleans never
originate from this program's own writes; they arise only when `read_csv`
re-infers them from a stored file. -/

inductive Value where
  | na : Value
  | str : String → Value
  | int : Int → Value
  | float : Rat → Value
  | bool : Bool → Value
  | date : Int → Value
deriving DecidableEq, Repr

/-! ## Character and string helpers

Executable ASCII models of the Python string primitives the sources use
(`str.lower`, `str.strip`, `int(...)` parsing, splitting on a dash). They
work on the character list of a `String`, so that the kernel can evaluate
them inside `decide`. -/

/-- ASCII lower-casing of one character (`str.lower`). -/
def lowerChar (c : Char) : Char :=
  if 'A' ≤ c && c ≤ 'Z' then Char.ofNat (c.toNat + 32) else c

/-- ASCII lower-casing of a string (`str.lower`). -/
def strLower (s : String) : String := String.mk (s.data.map lowerChar)

/-- Python `str.strip` whitespace set (ASCII part). -/
def isSpaceChar (c : Char) : Bool :=
  c == ' ' || c == '\t' || c == '\n' || c == '\r' || c == '\x0b' || c == '\x0c'

/-- Python `str.strip`: drop whitespace from both ends. -/
def strStrip (s : String) : String :=
  String.mk (((s.data.dropWhile isSpaceChar).reverse.dropWhile isSpaceChar).reverse)

/-- Value of a non-empty digit string. -/
def digitsToNat (cs : List Char) : Nat :=
  cs.foldl (fun a c => a * 10 + (c.toNat - 48)) 0

/-- Parse an optionally-signed decimal integer, as Python `int(...)` /
pandas integer inference accept it (a leading `+` or `-` is allowed);
`Option.none` on anything else. -/
def toIntQ (s : String) : Option Int :=
  match s.data with
  | [] => Option.none
  | '-' :: rest =>
    if !rest.isEmpty && rest.all Char.isDigit then
      some (-(digitsToNat rest : Int))
    else Option.none
  | '+' :: rest =>
    if !rest.isEmpty && rest.all Char.isDigit then
      some ((digitsToNat rest : Int))
    else Option.none
  | cs =>
    if cs.all Char.isDigit then some ((digitsToNat cs : Int)) else Option.none

/-- Parse the exponent suffix of a float literal: empty, or `e`/`E`
followed by an optionally-signed digit string. -/
def expQ (cs : List Char) : Option Int :=
  match cs with
  | [] => some 0
  | 'e' :: r | 'E' :: r =>
    match r with
    | '+' :: ds =>
      if !ds.isEmpty && ds.all Char.isDigit then some ((digitsToNat ds : Int))
      else Option.none
    | '-' :: ds =>
      if !ds.isEmpty && ds.all Char.isDigit then some (-(digitsToNat ds : Int))
      else Option.none
    | ds =>
      if !ds.isEmpty && ds.all Char.isDigit then some ((digitsToNat ds : Int))
      else Option.none
  | _ => Option.none

/-- Parse a decimal float literal as pandas float inference accepts it:
optional sign, digits with an optional decimal point (at least one digit),
optional exponent. The value is exact (`Rat`); IEEE `inf` spellings are not
parsed here (see `isInfStr`). -/
def toFloatQ (s : String) : Option Rat :=
  let core : List Char → Option Rat := fun cs =>
    let ip := cs.takeWhile Char.isDigit
    let r1 := cs.dropWhile Char.isDigit
    match r1 with
    | '.' :: r2 =>
      let fp := r2.takeWhile Char.isDigit
      let r3 := r2.dropWhile Char.isDigit
      if ip.isEmpty && fp.isEmpty then Option.none
      else
        (expQ r3).map (fun e =>
          ((digitsToNat ip : Rat) + (digitsToNat fp : Rat) / ((10 : Rat) ^ fp.length)) *
            (10 : Rat) ^ e)
    | r2 =>
      if ip.isEmpty then Option.none
      else (expQ r2).map (fun e => (digitsToNat ip : Rat) * (10 : Rat) ^ e)
  match s.data with
  | '+' :: cs => core cs
  | '-' :: cs => (core cs).map (fun q => -q)
  | cs => core cs

/-- The boolean words the pandas parser recognises. -/
def boolQ (s : String) : Option Bool :=
  if s == "True" || s == "TRUE" || s == "true" then some true
  else if s == "False" || s == "FALSE" || s == "false" then some false
  else Option.none

/-- The default NA sentinel strings of `read_csv`: cells equal to one of
these are read as missing values. -/
def NA_SENTINELS : List String :=
  ["", "#N/A", "#N/A N/A", "#NA", "-1.#IND", "-1.#QNAN", "-NaN", "-nan",
   "1.#IND", "1.#QNAN", "<NA>", "N/A", "NA", "NULL", "NaN", "None", "n/a",
   "nan", "null"]

/-- Spellings of IEEE infinity the pandas float parser accepts
(case-insensitive, optional sign). -/
def isInfStr (s : String) : Bool :=
  let t := strLower s
  t == "inf" || t == "infinity" || t == "-inf" || t == "-infinity" ||
    t == "+inf" || t == "+infinity"

/-- A string cell that the `to_csv`/`read_csv` round trip leaves as the same
string: not an NA sentinel, and neither it nor its whitespace-stripped form
is integer-, boolean-, float- or infinity-formatted (the pandas numeric
parsers skip surrounding whitespace, so the stripped form is checked too). -/
def stringSurvives (s : String) : Bool :=
  !(NA_SENTINELS.contains s) && (toIntQ s).isNone && (boolQ s).isNone
    && (toFloatQ s).isNone && !(isInfStr s)
    && !(NA_SENTINELS.contains (strStrip s)) && (toIntQ (strStrip s)).isNone
    && (boolQ (strStrip s)).isNone && (toFloatQ (strStrip s)).isNone
    && !(isInfStr (strStrip s))

/-- Decimal digits of the fractional part `r / d` (`fuel` bounds the
expansion; the fractions this program produces terminate well within it). -/
def fracDigits : Nat → Nat → Nat → List Char
  | 0, _, _ => []
  | fuel + 1, r, d =>
    let r10 := r * 10
    Char.ofNat (48 + r10 / d) ::
      (if r10 % d == 0 then [] else fracDigits fuel (r10 % d) d)

/-- Decimal rendering of a float cell, as `to_csv` writes float64 values
(`5.0`, `2.5`, …); always one digit after the point at least. -/
def floatRepr (q : Rat) : String :=
  let sign := if q.num < 0 then "-" else ""
  let n := q.num.natAbs
  let ipart := n / q.den
  let r := n % q.den
  let frac := if r == 0 then "0" else String.mk (fracDigits 30 r q.den)
  sign ++ toString ipart ++ "." ++ frac

/-- Split a character list at every dash, keeping empty groups
(the semantics of `str.split("-")` on the groups). -/
def splitDashAux : List Char → List Char → List (List Char)
  | [], acc => [acc.reverse]
  | c :: rest, acc =>
    if c == '-' then acc.reverse :: splitDashAux rest []
    else splitDashAux rest (c :: acc)

/-- Split a string on dashes. -/
def splitDash (s : String) : List (List Char) := splitDashAux s.data []

/-! ## Gregorian calendar arithmetic

Day-number/civil-date conversions (Howard Hinnant's algorithms, the same
arithmetic `datetime.date` implements), used to model the ISO date strings
pandas writes to and reads from CSV files. -/

/-- Day number since 1970-01-01 of the civil date `y-m-d`. -/
def daysFromCivil (y m d : Int) : Int :=
  let y2 := if m ≤ 2 then y - 1 else y
  let era := Int.fdiv y2 400
  let yoe := y2 - era * 400
  let mp := if 2 < m then m - 3 else m + 9
  let doy := Int.fdiv (153 * mp + 2) 5 + d - 1
  let doe := yoe * 365 + Int.fdiv yoe 4 - Int.fdiv yoe 100 + doy
  era * 146097 + doe - 719468

/-- Civil date `(y, m, d)` of a day number since 1970-01-01. -/
def civilFromDays (z0 : Int) : Int × Int × Int :=
  let z := z0 + 719468
  let era := Int.fdiv z 146097
  let doe := z - era * 146097
  let yoe := Int.fdiv (doe - Int.fdiv doe 1460 + Int.fdiv doe 36524 - Int.fdiv doe 146096) 365
  let y := yoe + era * 400
  let doy := doe - (365 * yoe + Int.fdiv yoe 4 - Int.fdiv yoe 100)
  let mp := Int.fdiv (5 * doy + 2) 153
  let d := doy - Int.fdiv (153 * mp + 2) 5 + 1
  let m := if mp < 10 then mp + 3 else mp - 9
  (if m ≤ 2 then y + 1 else y, m, d)

/-- Left-pad the decimal representation of `n` with zeros to `width` digits. -/
def padNum (width : Nat) (n : Int) : String :=
  let s := toString n.natAbs
  let pad := String.mk (List.replicate (width - s.length) '0')
  (if n < 0 then "-" else "") ++ pad ++ s

/-- ISO `YYYY-MM-DD` rendering of a day number, as `date.isoformat()` and
`DataFrame.to_csv` produce. -/
def isoDate (z : Int) : String :=
  let c := civilFromDays z
  padNum 4 c.1 ++ "-" ++ padNum 2 c.2.1 ++ "-" ++ padNum 2 c.2.2

/-- Gregorian leap-year test. -/
def isLeapYear (y : Int) : Bool :=
  y % 4 == 0 && (y % 100 != 0 || y % 400 == 0)

/-- Number of days in month `m` of year `y`. -/
def daysInMonth (y m : Int) : Int :=
  if m == 2 then (if isLeapYear y then 29 else 28)
  else if m == 4 || m == 6 || m == 9 || m == 11 then 30
  else 31

/-- Parse an ISO `YYYY-MM-DD` date string to a day number. Models the
date-string parsing done by `datetime.fromisoformat` and `pandas.to_datetime`
on the date strings this program writes; anything else is unparseable. -/
def parseDate (s : String) : Option Int :=
  match splitDash s with
  | [ys, ms, ds] =>
    if ys.length == 4 && ms.length == 2 && ds.length == 2
        && ys.all Char.isDigit && ms.all Char.isDigit && ds.all Char.isDigit then
      let y : Int := (digitsToNat ys : Int)
      let m : Int := (digitsToNat ms : Int)
      let d : Int := (digitsToNat ds : Int)
      if 1 ≤ m && m ≤ 12 && 1 ≤ d && d ≤ daysInMonth y m then
        some (daysFromCivil y m d)
      else Option.none
    else Option.none
  | _ => Option.none

/-! ## Credential store — `edunet_auth.py`

The users file holds `(email, password)` rows where `password` is the hex
digest produced by `hash_password`. The SHA-256 digest itself is an external
library call, so the model takes the hash as a function parameter; the pure
register/verify logic below is translated line by line from `register_user`
and `login_user`. -/

/-- `load_users()` from `edunet_auth.py`, acting on the (possibly absent)
users file, modelled as a column-named frame: a missing file or a file
missing the `email`/`password` columns yields the empty credential frame,
otherwise the `email`/`password` columns are returned as rows. -/
def load_users (file : Option (List (String × List Value))) : List (Value × Value) :=
  match file with
  | Option.none => []
  | some df =>
    if "email" ∈ df.map Prod.fst ∧ "password" ∈ df.map Prod.fst then
      (List.range (match df with | [] => 0 | (_, col) :: _ => col.length)).map (fun i =>
        ((((df.find? (fun p => p.1 == "email")).map Prod.snd).getD []).getD i Value.na,
         (((df.find? (fun p => p.1 == "password")).map Prod.snd).getD []).getD i Value.na))
    else []

/-! ## Task store — `edunet_study_planner.py`

A persisted tasks file is modelled column-major, the way pandas holds a
`DataFrame`: a list of named columns of cells. The whole file system is an
association list from file names to frames (a later `setFile` shadows an
earlier entry, which models overwriting). `to_csv` renders every cell to a
string (empty for missing), and `read_csv` detects NA sentinels and
re-infers integer, boolean and float columns; both directions are modelled
explicitly (see the header for the two inference cases deliberately left
out and fenced off by `wfTasks`). -/

/-- A pandas data frame, column-major: `(column name, cells)`. -/
abbrev DataFrame := List (String × List Value)

/-- The file system: file name to frame, later entries shadowing earlier. -/
abbrev Files := List (String × DataFrame)

/-- Look a file up by name. -/
def lookupFile (fs : Files) (name : String) : Option DataFrame :=
  (fs.find? (fun p => p.1 == name)).map Prod.snd

/-- Overwrite (or create) a file. -/
def setFile (fs : Files) (name : String) (df : DataFrame) : Files :=
  (name, df) :: fs

/-- Number of rows of a frame (length of its first column; 0 if no columns),
pandas `len(df)`. -/
def dfHeight (df : DataFrame) : Nat :=
  match df with
  | [] => 0
  | (_, col) :: _ => col.length

/-- The column names of a frame, `df.columns`. -/
def dfNames (df : DataFrame) : List String := df.map Prod.fst

/-- Cells of the first column named `name` (empty if absent), `df[name]`. -/
def getCol (df : DataFrame) (name : String) : List Value :=
  ((df.find? (fun p => p.1 == name)).map Prod.snd).getD []

/-- `sanitize_email_for_filename`: keep `[0-9A-Za-z\-_.]` of the lowercased
email, replace every other character by an underscore. -/
def isSafeFilenameChar (c : Char) : Bool :=
  c.isDigit || ('A' ≤ c && c ≤ 'Z') || ('a' ≤ c && c ≤ 'z')
    || c == '-' || c == '_' || c == '.'

/-- `sanitize_email_for_filename(email)` from `edunet_study_planner.py`. -/
def sanitize_email_for_filename (email : String) : String :=
  String.mk ((strLower email).data.map (fun c => if isSafeFilenameChar c then c else '_'))

/-- `get_tasks_filename_for_user(email)` from `edunet_study_planner.py`. -/
def get_tasks_filename_for_user (email : String) : String :=
  "tasks_" ++ sanitize_email_for_filename email ++ ".csv"

/-- The 13 task columns (`cols` in `load_tasks_for_user`). -/
def taskCols : List String :=
  ["Task Name", "Course", "Due Date", "Effort", "Type", "User Priority",
   "AI Priority", "Status", "Keywords", "Days Until Due",
   "Actual_AI_Priority", "Actual_Effort_Rating", "Completed Date"]

/-- One task record, the fields being the 13 task columns in order. -/
structure TaskRow where
  taskName : Value
  course : Value
  dueDate : Value
  effort : Value
  taskType : Value
  userPriority : Value
  aiPriority : Value
  status : Value
  keywords : Value
  daysUntilDue : Value
  actualAiPriority : Value
  actualEffortRating : Value
  completedDate : Value
deriving DecidableEq, Repr

/-- Field of a task record selected by its column name. -/
def getField (t : TaskRow) (c : String) : Value :=
  if c == "Task Name" then t.taskName
  else if c == "Course" then t.course
  else if c == "Due Date" then t.dueDate
  else if c == "Effort" then t.effort
  else if c == "Type" then t.taskType
  else if c == "User Priority" then t.userPriority
  else if c == "AI Priority" then t.aiPriority
  else if c == "Status" then t.status
  else if c == "Keywords" then t.keywords
  else if c == "Days Until Due" then t.daysUntilDue
  else if c == "Actual_AI_Priority" then t.actualAiPriority
  else if c == "Actual_Effort_Rating" then t.actualEffortRating
  else if c == "Completed Date" then t.completedDate
  else Value.na

/-- `to_csv` rendering of one cell: missing values and empty strings become
an empty cell (read back as NaN), integers, floats, booleans and dates their
decimal / Python / ISO rendering. -/
def serializeCell : Value → Value
  | Value.na => Value.na
  | Value.str s => if s == "" then Value.na else Value.str s
  | Value.int i => Value.str (toString i)
  | Value.float q => Value.str (floatRepr q)
  | Value.bool b => Value.str (if b then "True" else "False")
  | Value.date d => Value.str (isoDate d)

/-- The NA detection of `read_csv`: a cell equal to one of the default NA
sentinel strings is read as missing. -/
def naMapCell (v : Value) : Value :=
  match v with
  | Value.str s => if NA_SENTINELS.contains s then Value.na else Value.str s
  | _ => v

/-- Can `read_csv` take this cell as part of an integer column? -/
def cellIntParseable : Value → Bool
  | Value.na => true
  | Value.str s => (toIntQ s).isSome
  | _ => false

/-- Can `read_csv` take this cell as part of a boolean column? -/
def cellBoolParseable : Value → Bool
  | Value.na => true
  | Value.str s => (boolQ s).isSome
  | _ => false

/-- Can `read_csv` take this cell as part of a float column? -/
def cellFloatParseable : Value → Bool
  | Value.na => true
  | Value.str s => (toFloatQ s).isSome
  | _ => false

/-- `read_csv` column type re-inference: NA sentinels become missing; then a
column whose remaining cells are all integer-formatted comes back as
integers (as floats when missing values are present, the int64 column
widening to float64); failing that all-boolean columns come back as
booleans, all-float columns as floats; any other column is returned as
read. Not modelled (and excluded by `stringSurvives`, so no round-trip
theorem relies on them): IEEE infinity spellings and whitespace-padded
numerics, which real pandas would also convert. -/
def readCsvCol (col0 : List Value) : List Value :=
  let col := col0.map naMapCell
  if col.all cellIntParseable then
    let hasNa := col.any (fun v => v == Value.na)
    col.map (fun v =>
      match v with
      | Value.str s =>
        match toIntQ s with
        | some i => if hasNa then Value.float (i : Rat) else Value.int i
        | Option.none => v
      | _ => v)
  else if col.all cellBoolParseable then
    col.map (fun v =>
      match v with
      | Value.str s =>
        match boolQ s with
        | some b => Value.bool b
        | Option.none => v
      | _ => v)
  else if col.all cellFloatParseable then
    col.map (fun v =>
      match v with
      | Value.str s =>
        match toFloatQ s with
        | some q => Value.float q
        | Option.none => v
      | _ => v)
  else col

/-- `for c in cols: if c not in df.columns: df[c] = None` — append each
missing expected column, filled with missing values. -/
def ensureCols (df : DataFrame) : List String → DataFrame
  | [] => df
  | c :: cs =>
    ensureCols
      (if c ∈ dfNames df then df
       else df ++ [(c, List.replicate (dfHeight df) Value.na)]) cs

/-- Can `pd.to_datetime` parse this cell (missing cells pass through as
NaT)? Integer cells are treated as unparseable — see the header note. -/
def cellDateParseable : Value → Bool
  | Value.na => true
  | Value.str s => (parseDate s).isSome
  | _ => false

/-- `pd.to_datetime(col).dt.date` under the surrounding `try`: if every cell
parses the column becomes dates (missing stays missing), otherwise the
exception is swallowed and the column is left untouched. -/
def toDatetimeCol (col : List Value) : List Value :=
  if col.all cellDateParseable then
    col.map (fun v =>
      match v with
      | Value.str s =>
        match parseDate s with
        | some d => Value.date d
        | Option.none => v
      | _ => v)
  else col

/-- Apply the date normalisation to the column called `name` (duplicate
column names would make `pd.to_datetime` raise, leaving the frame as is). -/
def normalizeDateCol (df : DataFrame) (name : String) : DataFrame :=
  if (df.filter (fun p => p.1 == name)).length ≤ 1 then
    df.map (fun p => if p.1 == name then (p.1, toDatetimeCol p.2) else p)
  else df

/-- Row `i` of a frame along the 13 task columns. -/
def rowAt (df : DataFrame) (i : Nat) : TaskRow :=
  { taskName := (getCol df "Task Name").getD i Value.na
    course := (getCol df "Course").getD i Value.na
    dueDate := (getCol df "Due Date").getD i Value.na
    effort := (getCol df "Effort").getD i Value.na
    taskType := (getCol df "Type").getD i Value.na
    userPriority := (getCol df "User Priority").getD i Value.na
    aiPriority := (getCol df "AI Priority").getD i Value.na
    status := (getCol df "Status").getD i Value.na
    keywords := (getCol df "Keywords").getD i Value.na
    daysUntilDue := (getCol df "Days Until Due").getD i Value.na
    actualAiPriority := (getCol df "Actual_AI_Priority").getD i Value.na
    actualEffortRating := (getCol df "Actual_Effort_Rating").getD i Value.na
    completedDate := (getCol df "Completed Date").getD i Value.na }

/-- `df[cols]`: read the frame back row-wise along the 13 task columns. -/
def dfTaskRows (df : DataFrame) : List TaskRow :=
  (List.range (dfHeight df)).map (rowAt df)

/-- `load_tasks_for_user(email)` from `edunet_study_planner.py`: read the
user's file if present (else the empty collection), ensure the 13 expected
columns exist, normalise the two date columns, and project to the expected
columns. -/
def load_tasks_for_user (fs : Files) (email : String) : List TaskRow :=
  match lookupFile fs (get_tasks_filename_for_user email) with
  | Option.none => []
  | some df0 =>
    let df1 := df0.map (fun p => (p.1, readCsvCol p.2))
    let df2 := ensureCols df1 taskCols
    let df3 := normalizeDateCol df2 "Due Date"
    let df4 := normalizeDateCol df3 "Completed Date"
    dfTaskRows df4

/-- The frame `to_csv` writes for a task collection: one serialised column
per task field, in the source's column order. -/
def tasksToDf (tasks : List TaskRow) : DataFrame :=
  [("Task Name", tasks.map (fun t => serializeCell t.taskName)),
     ("Course", tasks.map (fun t => serializeCell t.course)),
     ("Due Date", tasks.map (fun t => serializeCell t.dueDate)),
     ("Effort", tasks.map (fun t => serializeCell t.effort)),
     ("Type", tasks.map (fun t => serializeCell t.taskType)),
     ("User Priority", tasks.map (fun t => serializeCell t.userPriority)),
     ("AI Priority", tasks.map (fun t => serializeCell t.aiPriority)),
     ("Status", tasks.map (fun t => serializeCell t.status)),
     ("Keywords", tasks.map (fun t => serializeCell t.keywords)),
     ("Days Until Due", tasks.map (fun t => serializeCell t.daysUntilDue)),
     ("Actual_AI_Priority", tasks.map (fun t => serializeCell t.actualAiPriority)),
   ("Actual_Effort_Rating", tasks.map (fun t => serializeCell t.actualEffortRating)),
   ("Completed Date", tasks.map (fun t => serializeCell t.completedDate))]

/-- `save_tasks_for_user(email, df)`: overwrite the user's file with the
serialised collection. -/
def save_tasks_for_user (fs : Files) (email : String) (tasks : List TaskRow) : Files :=
  setFile fs (get_tasks_filename_for_user email) (tasksToDf tasks)

/-! ## Derived-field helpers -/

/-- The fixed stop-word set `STOPWORDS`. -/
def STOPWORDS : List String :=
  ["the", "is", "in", "at", "to", "and", "a", "of", "on", "for", "with",
   "that", "this", "as", "it", "by", "from", "an", "be", "are", "or", "was"]

/-- Regex word character (`\w` over ASCII): letter, digit or underscore. -/
def isWordChar (c : Char) : Bool := c.isAlphanum || c == '_'

/-- Lowercase ASCII letter. -/
def isLowerAlpha (c : Char) : Bool := 'a' ≤ c && c ≤ 'z'

/-- Maximal runs of characters satisfying `p`, in order of occurrence. -/
def runsAux (p : Char → Bool) : List Char → List Char → List (List Char)
  | [], acc => if acc.isEmpty then [] else [acc.reverse]
  | c :: rest, acc =>
    if p c then runsAux p rest (c :: acc)
    else if acc.isEmpty then runsAux p rest []
    else acc.reverse :: runsAux p rest []

/-- Maximal runs of characters satisfying `p` in a string. -/
def runs (p : Char → Bool) (s : String) : List (List Char) := runsAux p s.data []

/-- The matches of `re.findall(r'\b[a-z]{2,}\b', s)`: exactly the maximal
word-character runs of `s` that consist solely of lowercase letters and have
length at least 2 (a lowercase-letter run adjacent to a digit or an
underscore has no word boundary next to it and is not matched). -/
def regexWordsLower (s : String) : List String :=
  ((runs isWordChar s).filter (fun cs => cs.all isLowerAlpha && 2 ≤ cs.length)).map String.mk

/-- Python `str.isalnum`: non-empty and all alphanumeric. -/
def isAlnumStr (w : String) : Bool := !w.data.isEmpty && w.data.all Char.isAlphanum

/-- `extract_keywords_simple(text)` from `edunet_study_planner.py`. -/
def extract_keywords_simple (text : String) : String :=
  let t := strLower text
  let words := regexWordsLower t
  let filtered := words.filter (fun w => isAlnumStr w && !(STOPWORDS.contains w))
  String.intercalate ", " filtered

/-- Follows the claim's words (for comparison with the source function):
lowercase, tokenize into maximal runs of two or more alphabetic characters,
discard stop-words, join with a comma and a space. -/
def extract_keywords_claim (text : String) : String :=
  let toks := ((runs isLowerAlpha (strLower text)).filter
    (fun cs => 2 ≤ cs.length)).map String.mk
  String.intercalate ", " (toks.filter (fun w => !(STOPWORDS.contains w)))

/-- The argument `calculate_days_until_due` receives: a missing value, a
string, or a date (the app passes dates from `st.date_input` or strings from
an unnormalised CSV column). -/
inductive DueInput where
  | str : String → DueInput
  | date : Int → DueInput
deriving DecidableEq, Repr

/-- `calculate_days_until_due(due_date)` from `edunet_study_planner.py`,
with `datetime.now()` passed explicitly as `now`, a second count since the
epoch: missing and unparseable inputs give `Option.none`; otherwise the due
date is taken at midnight, `now` is subtracted, and the floored whole-day
difference is clamped at 0. -/
def calculate_days_until_due (now : Int) (due : Option DueInput) : Option Int :=
  match due with
  | Option.none => Option.none
  | some (DueInput.str s) =>
    match parseDate s with
    | Option.none => Option.none
    | some d => some (max 0 (Int.fdiv (d * 86400 - now) 86400))
  | some (DueInput.date d) => some (max 0 (Int.fdiv (d * 86400 - now) 86400))

/-- `datetime.now().date()`: the current day number. -/
def todayOf (now : Int) : Int := Int.fdiv now 86400

/-! ## Action handlers -/

/-- The field updates the complete handler applies to the selected row. -/
def completeRow (t : TaskRow) (today : Int) (ap ae : String) : TaskRow :=
  { t with
    status := Value.str "Completed"
    actualAiPriority := Value.str ap
    actualEffortRating := Value.str ae
    completedDate := Value.date today }

/-- Replace the element at an index by the image under `f` (no change when
the index is out of range). -/
def updateAt : List TaskRow → Nat → (TaskRow → TaskRow) → List TaskRow
  | [], _, _ => []
  | t :: ts, 0, f => f t :: ts
  | t :: ts, Nat.succ n, f => t :: updateAt ts n f

/-- Index of the first row whose `Task Name` cell equals the chosen name:
`df_tasks[df_tasks['Task Name'] == choice].index[0]` (`Option.none` models
the `IndexError` when no row matches). -/
def firstIdxMatching : List TaskRow → String → Option Nat
  | [], _ => Option.none
  | t :: ts, c =>
    if t.taskName == Value.str c then some 0
    else (firstIdxMatching ts c).map Nat.succ

/-- The `complete_form` submit handler: `idx` is the index of the first row
whose `Task Name` equals the chosen name (`.index[0]` raises when no row
matches, modelled by `Option.none`); that row gets status `Completed`, the
actual-priority and actual-effort feedback, and today's date. -/
def complete_form_submit (today : Int) (tasks : List TaskRow)
    (choice ap ae : String) : Option (List TaskRow) :=
  match firstIdxMatching tasks choice with
  | Option.none => Option.none
  | some i => some (updateAt tasks i (fun t => completeRow t today ap ae))

/-- The persistence step of the complete handler: on success the updated
collection is saved to the user's file; on failure nothing is written. -/
def complete_form_persist (fs : Files) (email : String) (today : Int)
    (tasks : List TaskRow) (choice ap ae : String) : Files :=
  match complete_form_submit today tasks choice ap ae with
  | Option.none => fs
  | some ts => save_tasks_for_user fs email ts

/-- The delete handler: `df_tasks[df_tasks['Task Name'] != delete_choice]`,
keeping every row whose name differs from the chosen one. -/
def delete_selected (tasks : List TaskRow) (choice : String) : List TaskRow :=
  tasks.filter (fun t => t.taskName != Value.str choice)

/-- The delete handler's persistence step. -/
def delete_persist (fs : Files) (email : String) (tasks : List TaskRow)
    (choice : String) : Files :=
  save_tasks_for_user fs email (delete_selected tasks choice)

/-! ## Summary engine -/

/-- The `effort_map` of `study_time_suggestions`: hours per effort level
(keys outside the map produce a missing value, which `.sum()` skips). -/
def effortMap : Value → Option Rat
  | Value.str "Low" => some 1
  | Value.str "Medium" => some ((5 : Rat) / 2)
  | Value.str "High" => some 5
  | _ => Option.none

/-- Extract the day numbers of a list of cells if all of them are dates
(`min` over anything else raises, or the later date subtraction does). -/
def datesOnly : List Value → Option (List Int)
  | [] => some []
  | Value.date d :: rest => (datesOnly rest).map (fun l => d :: l)
  | _ :: _ => Option.none

/-- Python 3 `round` to an integer: nearest, ties to even. -/
def halfEvenRound (x : Rat) : Int :=
  if x - (⌊x⌋ : Rat) < (1 : Rat) / 2 then ⌊x⌋
  else if (1 : Rat) / 2 < x - (⌊x⌋ : Rat) then ⌊x⌋ + 1
  else if ⌊x⌋ % 2 == 0 then ⌊x⌋ else ⌊x⌋ + 1

/-- Python `round(x, 1)`. -/
def round1 (x : Rat) : Rat := ((halfEvenRound (10 * x) : Int) : Rat) / 10

/-- `study_time_suggestions(df)` from `edunet_study_planner.py`, with
`date.today()` passed explicitly: `Option.none` for an empty collection;
0 when nothing is pending; otherwise the summed effort hours of the pending
tasks divided by the days to the nearest pending due date (at least 1),
falling back to 7 days when that minimum cannot be computed, rounded to one
decimal. -/
def study_time_suggestions (today : Int) (tasks : List TaskRow) : Option Rat :=
  if tasks.isEmpty then Option.none
  else
    let pending := tasks.filter (fun t => t.status == Value.str "Pending")
    if pending.isEmpty then some 0
    else
      let total : Rat := (pending.map (fun t => effortMap t.effort)).foldl
        (fun a o => a + o.getD 0) 0
      let nonNa := (pending.map (fun t => t.dueDate)).filter (fun v => v != Value.na)
      let daysRemaining : Int :=
        match (datesOnly nonNa).bind List.min? with
        | some nd => max 1 (nd - today)
        | Option.none => 7
      some (round1 (total / (daysRemaining : Rat)))

/-! ## Well-formedness of persisted cells

A cell survives the `to_csv`/`read_csv` round trip exactly when it does not
collide with the re-inference: integer cells print-parse back and fill their
column (an integer column containing missing values is widened to floats),
string cells are non-empty and not NA-sentinel-, integer-, boolean-, float-
or infinity-formatted (also after stripping), date cells print-parse back
and their ISO rendering is similarly inert. Columns must additionally be
homogeneous (a stray string in an integer column defeats the whole-column
inference). -/

/-- Cell of an all-integer column that survives the round trip. -/
def intCellOK : Value → Bool
  | Value.int i =>
    toIntQ (toString i) == some i && !(NA_SENTINELS.contains (toString i))
  | _ => false

/-- Cell of a string column that survives the round trip. -/
def strCellOK : Value → Bool
  | Value.na => true
  | Value.str s => !(s == "") && stringSurvives s
  | _ => false

/-- Cell of a date column that survives the round trip. -/
def dateCellOK : Value → Bool
  | Value.na => true
  | Value.date d => parseDate (isoDate d) == some d && stringSurvives (isoDate d)
  | _ => false

/-- A column whose cells all survive the round trip. -/
def wfColumn (isDateCol : Bool) (col : List Value) : Bool :=
  if isDateCol then col.all dateCellOK
  else col.all intCellOK || col.all strCellOK

/-- A task collection whose 13 columns all survive the round trip. -/
def wfTasks (tasks : List TaskRow) : Bool :=
  wfColumn false (tasks.map TaskRow.taskName) &&
  wfColumn false (tasks.map TaskRow.course) &&
  wfColumn true (tasks.map TaskRow.dueDate) &&
  wfColumn false (tasks.map TaskRow.effort) &&
  wfColumn false (tasks.map TaskRow.taskType) &&
  wfColumn false (tasks.map TaskRow.userPriority) &&
  wfColumn false (tasks.map TaskRow.aiPriority) &&
  wfColumn false (tasks.map TaskRow.status) &&
  wfColumn false (tasks.map TaskRow.keywords) &&
  wfColumn false (tasks.map TaskRow.daysUntilDue) &&
  wfColumn false (tasks.map TaskRow.actualAiPriority) &&
  wfColumn false (tasks.map TaskRow.actualEffortRating) &&
  wfColumn true (tasks.map TaskRow.completedDate)

/-! ## Concrete demonstration data (used by witnesses and counterexamples) -/

/-- A completed task named A. -/
def rowACompleted : TaskRow :=
  { taskName := Value.str "A", course := Value.str "CS", dueDate := Value.date 20005,
    effort := Value.str "High", taskType := Value.str "Reading",
    userPriority := Value.str "High", aiPriority := Value.str "High",
    status := Value.str "Completed", keywords := Value.str "a", daysUntilDue := Value.int 5,
    actualAiPriority := Value.na, actualEffortRating := Value.na,
    completedDate := Value.date 20001 }

/-- A pending task named A. -/
def rowAPending : TaskRow :=
  { rowACompleted with status := Value.str "Pending", completedDate := Value.na }

/-- A task whose course name is the numeric-looking string "5". -/
def c3Row : TaskRow := { rowACompleted with course := Value.str "5" }

/-- A stored tasks file having only the `Task Name` column (12 of the 13
expected columns are missing), with one row. -/
def c8df : DataFrame := [("Task Name", [Value.str "X"])]

/-- A file system holding `c8df` as the tasks file of `u@x.com`. -/
def c8fs : Files := [(get_tasks_filename_for_user "u@x.com", c8df)]

/-! ## Shared helper lemmas -/

/-- C9: the delete handler removes exactly the rows whose task name equals
the chosen name (completed ones included), preserves the order of the
remaining rows, is a no-op when no row matches, and persists the filtered
collection. -/
theorem delete_selected_spec (fs : Files) (email : String) (tasks : List TaskRow)
    (choice : String) :
    delete_selected tasks choice =
      tasks.filter (fun t => !(t.taskName == Value.str choice))
    ∧ (∀ t ∈ delete_selected tasks choice, t.taskName ≠ Value.str choice)
    ∧ ((∀ t ∈ tasks, t.taskName ≠ Value.str choice) → delete_selected tasks choice = tasks)
    ∧ delete_persist fs email tasks choice =
        save_tasks_for_user fs email (delete_selected tasks choice) := by
  refine ⟨rfl, ?_, ?_, rfl⟩
  · intro t ht
    have := (List.mem_filter.mp ht).2
    simpa [bne_iff_ne] using this
  · intro h
    rw [delete_selected, List.filter_eq_self]
    intro t ht
    simpa [bne_iff_ne] using h t ht

/-- C9 witness: deleting a name matching no row is a no-op, and the delete
handler persists exactly the filtered collection. -/
theorem delete_selected_spec_witness :
    delete_selected [rowAPending] "B" = [rowAPending]
    ∧ delete_persist [] "u" [rowACompleted, rowAPending] "A" =
        save_tasks_for_user [] "u" (delete_selected [rowACompleted, rowAPending] "A") :=
  ⟨(delete_selected_spec [] "u" [rowAPending] "B").2.2.1 (by decide),
    (delete_selected_spec [] "u" [rowACompleted, rowAPending] "A").2.2.2⟩

/-- C5 counterexample: at 01:00 on 1970-01-01 (`now = 3600`), a due date five
days from today yields 4, not the 5 the claim asserts — the code measures
from the current clock time to the due date's midnight and floors. -/
theorem calculate_days_until_due_plus5_counterexample :
    calculate_days_until_due 3600 (some (DueInput.date (todayOf 3600 + 5))) = some 4
    ∧ calculate_days_until_due 3600 (some (DueInput.date (todayOf 3600 + 5))) ≠ some 5 := by
  decide

/-- C5 (amended): `calculate_days_until_due` returns the floored whole-day
difference from now to the due date's midnight, clamped at 0 (so never
negative); a missing or unparseable input yields a missing result; today and
yesterday yield 0; a due date five days from today yields 4, or 5 exactly at
midnight. -/
theorem calculate_days_until_due_spec (now : Int) :
    calculate_days_until_due now Option.none = Option.none
    ∧ (∀ s, parseDate s = Option.none →
        calculate_days_until_due now (some (DueInput.str s)) = Option.none)
    ∧ (∀ s d, parseDate s = some d →
        calculate_days_until_due now (some (DueInput.str s)) =
          calculate_days_until_due now (some (DueInput.date d)))
    ∧ (∀ d k, calculate_days_until_due now (some (DueInput.date d)) = some k → 0 ≤ k)
    ∧ (∀ d, calculate_days_until_due now (some (DueInput.date d)) =
        some (max 0 (Int.fdiv (d * 86400 - now) 86400)))
    ∧ calculate_days_until_due now (some (DueInput.date (todayOf now))) = some 0
    ∧ calculate_days_until_due now (some (DueInput.date (todayOf now - 1))) = some 0
    ∧ calculate_days_until_due now (some (DueInput.date (todayOf now + 5))) =
        some (if now % 86400 = 0 then 5 else 4) := by
  have h86 : (0 : Int) ≤ 86400 := by norm_num
  refine ⟨rfl, fun s h => by simp [calculate_days_until_due, h],
    fun s d h => by simp [calculate_days_until_due, h], ?_, fun d => rfl, ?_, ?_, ?_⟩
  · intro d k h
    simp only [calculate_days_until_due, Option.some_inj] at h
    rw [← h]
    exact le_max_left 0 _
  · simp only [calculate_days_until_due, todayOf, Option.some_inj,
      Int.fdiv_eq_ediv _ h86]
    omega
  · simp only [calculate_days_until_due, todayOf, Option.some_inj,
      Int.fdiv_eq_ediv _ h86]
    omega
  · simp only [calculate_days_until_due, todayOf, Option.some_inj,
      Int.fdiv_eq_ediv _ h86]
    split <;> omega

/-- C5 witness: concrete evaluations at 01:00 on 1970-01-01. -/
theorem calculate_days_until_due_spec_witness :
    calculate_days_until_due 3600 (some (DueInput.str "garbage")) = Option.none
    ∧ calculate_days_until_due 3600 (some (DueInput.str "1970-01-06")) = some 4
    ∧ calculate_days_until_due 3600 (some (DueInput.date (todayOf 3600 - 1))) = some 0 := by
  have h := calculate_days_until_due_spec 3600
  refine ⟨h.2.1 "garbage" (by decide), ?_, h.2.2.2.2.2.2.1⟩
  rw [h.2.2.1 "1970-01-06" 5 (by decide)]
  decide

theorem mem_regexWordsLower {s w : String} (h : w ∈ regexWordsLower s) :
    2 ≤ w.length ∧ w.data.all isLowerAlpha = true := by
  simp only [regexWordsLower, List.mem_map, List.mem_filter, Bool.and_eq_true,
    decide_eq_true_eq] at h
  obtain ⟨cs, ⟨_, hall, hlen⟩, rfl⟩ := h
  exact ⟨hlen, hall⟩

theorem lowerAlpha_isAlphanum {c : Char} (h : isLowerAlpha c = true) :
    c.isAlphanum = true := by
  simp only [isLowerAlpha, Bool.and_eq_true, decide_eq_true_eq] at h
  simp only [Char.isAlphanum, Char.isAlpha, Char.isLower, Char.isUpper, Char.isDigit,
    Bool.or_eq_true, Bool.and_eq_true, decide_eq_true_eq]
  exact Or.inl (Or.inr ⟨h.1, h.2⟩)

theorem regexWordsLower_isAlnum {s w : String} (h : w ∈ regexWordsLower s) :
    isAlnumStr w = true := by
  obtain ⟨hlen, hall⟩ := mem_regexWordsLower h
  simp only [isAlnumStr, Bool.and_eq_true, Bool.not_eq_true', List.all_eq_true] at *
  refine ⟨?_, fun c hc => lowerAlpha_isAlphanum (hall c hc)⟩
  cases hd : w.data with
  | nil => simp [String.length, hd] at hlen
  | cons a as => simp [hd]

/-- C6 counterexample: the claim's tokenization ("runs of 2 or more
alphabetic characters") would extract "ab" and "cd" from "ab5cd", but the
regex `\b[a-z]{2,}\b` requires word boundaries, and a letter run adjacent to
a digit has none, so the code extracts nothing. -/
theorem extract_keywords_simple_counterexample :
    extract_keywords_simple "ab5cd" = ""
    ∧ extract_keywords_claim "ab5cd" = "ab, cd"
    ∧ extract_keywords_simple "ab5cd" ≠ extract_keywords_claim "ab5cd" := by
  decide

/-- C6 (amended): `extract_keywords_simple` lowercases its input, tokenizes
it into the maximal word-character runs (letters, digits, underscore) that
consist solely of 2 or more alphabetic characters, discards stop-words, and
joins the rest with a comma and space in occurrence order; every emitted
token has length at least 2, is all lowercase letters, and is not a
stop-word; on the spec's example it yields "read, chapter, review, notes". -/
theorem extract_keywords_simple_spec (text : String) :
    extract_keywords_simple text =
      String.intercalate ", "
        ((regexWordsLower (strLower text)).filter (fun w => !(STOPWORDS.contains w)))
    ∧ (∀ w ∈ (regexWordsLower (strLower text)).filter (fun w => !(STOPWORDS.contains w)),
        2 ≤ w.length ∧ w.data.all isLowerAlpha = true ∧ ¬ w ∈ STOPWORDS)
    ∧ extract_keywords_simple "Read Chapter 5 and Review Notes" =
        "read, chapter, review, notes" := by
  refine ⟨?_, ?_, by decide⟩
  · simp only [extract_keywords_simple]
    congr 1
    apply List.filter_congr
    intro w hw
    simp [regexWordsLower_isAlnum hw]
  · intro w hw
    have hmem := (List.mem_filter.mp hw).1
    have hstop := (List.mem_filter.mp hw).2
    obtain ⟨h1, h2⟩ := mem_regexWordsLower hmem
    refine ⟨h1, h2, fun hmemS => ?_⟩
    have helem := List.elem_eq_true_of_mem hmemS
    simp only [List.contains, helem, Bool.not_true] at hstop
    exact absurd hstop (by decide)

/-- C6 witness: the spec example token list and one token's properties. -/
theorem extract_keywords_simple_spec_witness :
    extract_keywords_simple "Read Chapter 5 and Review Notes" =
      "read, chapter, review, notes"
    ∧ (2 ≤ "read".length ∧ "read".data.all isLowerAlpha = true
        ∧ ¬ "read" ∈ STOPWORDS) := by
  have h := extract_keywords_simple_spec "Read Chapter 5 and Review Notes"
  exact ⟨h.2.2, h.2.1 "read" (by decide)⟩

theorem firstIdxMatching_eq_none_iff (tasks : List TaskRow) (choice : String) :
    firstIdxMatching tasks choice = Option.none ↔
      ∀ t ∈ tasks, t.taskName ≠ Value.str choice := by
  induction tasks with
  | nil => simp [firstIdxMatching]
  | cons a as ih =>
    simp only [firstIdxMatching]
    by_cases h : a.taskName == Value.str choice
    · rw [if_pos h]
      constructor
      · intro hc; exact absurd hc (by simp)
      · intro hall; exact absurd (eq_of_beq h) (hall a (by simp))
    · rw [if_neg h]
      have ha : a.taskName ≠ Value.str choice := by simpa [beq_iff_eq] using h
      simp [Option.map_eq_none', ih, List.forall_mem_cons, ha]

theorem firstIdxMatching_eq_some (tasks : List TaskRow) (choice : String) (i : Nat)
    (t : TaskRow) (ht : tasks[i]? = some t)
    (hmatch : t.taskName = Value.str choice)
    (hbefore : ∀ j u, j < i → tasks[j]? = some u →
      u.taskName ≠ Value.str choice) :
    firstIdxMatching tasks choice = some i := by
  induction tasks generalizing i with
  | nil => simp at ht
  | cons a as ih =>
    cases i with
    | zero =>
      simp only [List.getElem?_cons_zero, Option.some_inj] at ht
      subst ht
      simp [firstIdxMatching, hmatch]
    | succ n =>
      have ha : a.taskName ≠ Value.str choice :=
        hbefore 0 a (Nat.succ_pos n) (by simp)
      rw [firstIdxMatching, if_neg (by simpa [beq_iff_eq] using ha)]
      rw [ih n (by simpa using ht)
        (fun j u hj hu => hbefore (j + 1) u (by omega) (by simpa using hu))]
      rfl

theorem firstIdxMatching_lt_length (tasks : List TaskRow) (choice : String) (i : Nat)
    (h : firstIdxMatching tasks choice = some i) :
    i < tasks.length
    ∧ ∃ t, tasks[i]? = some t ∧ t.taskName = Value.str choice := by
  induction tasks generalizing i with
  | nil => simp [firstIdxMatching] at h
  | cons a as ih =>
    simp only [firstIdxMatching] at h
    by_cases hm : a.taskName == Value.str choice
    · rw [if_pos hm] at h
      obtain rfl : (0 : Nat) = i := by simpa using h
      exact ⟨by simp, a, by simp, eq_of_beq hm⟩
    · rw [if_neg hm] at h
      cases hn : firstIdxMatching as choice with
      | none => rw [hn] at h; simp at h
      | some n =>
        rw [hn] at h
        obtain rfl : n + 1 = i := by simpa using h
        obtain ⟨h1, t, h2, h3⟩ := ih n hn
        exact ⟨by simpa using h1, t, by simpa using h2, h3⟩

theorem length_updateAt (l : List TaskRow) (i : Nat) (f : TaskRow → TaskRow) :
    (updateAt l i f).length = l.length := by
  induction l generalizing i with
  | nil => rfl
  | cons a as ih => cases i <;> simp [updateAt, ih]

theorem getElem?_updateAt_ne (l : List TaskRow) (i j : Nat) (f : TaskRow → TaskRow)
    (h : j ≠ i) : (updateAt l i f)[j]? = l[j]? := by
  induction l generalizing i j with
  | nil => rfl
  | cons a as ih =>
    cases i with
    | zero =>
      cases j with
      | zero => exact absurd rfl h
      | succ m => simp [updateAt]
    | succ n =>
      cases j with
      | zero => simp [updateAt]
      | succ m => simpa [updateAt] using ih n m (by omega)

theorem getElem?_updateAt_self (l : List TaskRow) (i : Nat) (f : TaskRow → TaskRow) :
    (updateAt l i f)[i]? = (l[i]?).map f := by
  induction l generalizing i with
  | nil => rfl
  | cons a as ih =>
    cases i with
    | zero => simp [updateAt]
    | succ n => simpa [updateAt] using ih n

/-- C4 counterexample: the handler succeeds on a collection whose only
name-match is already completed (where the claim requires a not-found
failure), and with a completed task named A listed before a pending task
named A it modifies the completed row and leaves the pending row pending
(where the claim requires the first pending match to be completed). -/
theorem complete_form_submit_counterexample :
    (complete_form_submit 20002 [rowACompleted] "A" "Low" "Longer").isSome = true
    ∧ complete_form_submit 20002 [rowACompleted, rowAPending] "A" "Low" "Longer" =
        some [completeRow rowACompleted 20002 "Low" "Longer", rowAPending]
    ∧ (complete_form_submit 20002 [rowACompleted, rowAPending] "A" "Low" "Longer").map
        (List.map TaskRow.status) = some [Value.str "Completed", Value.str "Pending"] := by
  decide

/-- C4 (amended): the complete handler fails only when no row at all (of any
status) has the chosen task name; otherwise it selects the first row whose
name matches, regardless of status, sets its status to Completed, stamps
today's date, records the supplied actual priority and actual effort rating,
and persists the updated collection. -/
theorem complete_form_submit_spec (fs : Files) (email : String) (today : Int)
    (tasks : List TaskRow) (choice ap ae : String) :
    (complete_form_submit today tasks choice ap ae = Option.none ↔
      ∀ t ∈ tasks, t.taskName ≠ Value.str choice)
    ∧ (∀ i t, tasks[i]? = some t → t.taskName = Value.str choice →
        (∀ j u, j < i → tasks[j]? = some u →
          u.taskName ≠ Value.str choice) →
        complete_form_submit today tasks choice ap ae =
          some (updateAt tasks i (fun r => completeRow r today ap ae)))
    ∧ (∀ ts, complete_form_submit today tasks choice ap ae = some ts →
        complete_form_persist fs email today tasks choice ap ae =
          save_tasks_for_user fs email ts) := by
  refine ⟨?_, ?_, ?_⟩
  · cases hidx : firstIdxMatching tasks choice with
    | none =>
      simp only [complete_form_submit, hidx]
      simpa using (firstIdxMatching_eq_none_iff tasks choice).mp hidx
    | some i =>
      simp only [complete_form_submit, hidx]
      obtain ⟨-, t, ht, hm⟩ := firstIdxMatching_lt_length tasks choice i hidx
      simp only [reduceCtorEq, false_iff]
      intro hall
      exact hall t (by exact List.getElem?_mem ht) hm
  · intro i t ht hm hb
    rw [complete_form_submit, firstIdxMatching_eq_some tasks choice i t ht hm hb]
  · intro ts h
    simp only [complete_form_persist, h]

/-- C4 witness: completing the only pending row succeeds with the expected
update, and a name matching no row fails. -/
theorem complete_form_submit_spec_witness :
    complete_form_submit 20002 [rowAPending] "A" "Low" "Longer" =
      some (updateAt [rowAPending] 0 (fun r => completeRow r 20002 "Low" "Longer"))
    ∧ complete_form_submit 20002 [rowACompleted] "B" "Low" "Longer" = Option.none := by
  constructor
  · exact (complete_form_submit_spec [] "u" 20002 [rowAPending] "A" "Low" "Longer").2.1 0
      rowAPending rfl (by decide) (fun j u hj hu => absurd hj (by omega))
  · exact (complete_form_submit_spec [] "u" 20002 [rowACompleted] "B" "Low" "Longer").1.mpr
      (by decide)

/-- C10: when the complete handler succeeds, the row count and order are
preserved, every row other than the selected one is unchanged, and of the
selected row only Status, Actual_AI_Priority, Actual_Effort_Rating and
Completed Date change — name, course, due date, effort, type, user priority,
AI priority, keywords and days-until-due are untouched. -/
theorem complete_form_submit_frame (today : Int) (tasks : List TaskRow)
    (choice ap ae : String) (ts : List TaskRow)
    (h : complete_form_submit today tasks choice ap ae = some ts) :
    ts.length = tasks.length
    ∧ ∃ i, i < tasks.length
      ∧ (∀ j, j ≠ i → ts[j]? = tasks[j]?)
      ∧ (∀ t t2, tasks[i]? = some t → ts[i]? = some t2 →
          t2.taskName = t.taskName ∧ t2.course = t.course ∧ t2.dueDate = t.dueDate
          ∧ t2.effort = t.effort ∧ t2.taskType = t.taskType
          ∧ t2.userPriority = t.userPriority ∧ t2.aiPriority = t.aiPriority
          ∧ t2.keywords = t.keywords ∧ t2.daysUntilDue = t.daysUntilDue
          ∧ t2.status = Value.str "Completed" ∧ t2.actualAiPriority = Value.str ap
          ∧ t2.actualEffortRating = Value.str ae
          ∧ t2.completedDate = Value.date today) := by
  cases hidx : firstIdxMatching tasks choice with
  | none => simp [complete_form_submit, hidx] at h
  | some i =>
    simp only [complete_form_submit, hidx, Option.some_inj] at h
    subst h
    obtain ⟨hlt, -⟩ := firstIdxMatching_lt_length tasks choice i hidx
    refine ⟨length_updateAt tasks i _, i, hlt,
      fun j hj => getElem?_updateAt_ne tasks i j _ hj, ?_⟩
    intro t t2 ht ht2
    rw [getElem?_updateAt_self, ht] at ht2
    obtain rfl : t2 = completeRow t today ap ae := by simpa using ht2.symm
    simp [completeRow]

/-- C10 witness: completing the only row of a singleton collection preserves
the row count. -/
theorem complete_form_submit_frame_witness :
    [completeRow rowAPending 20002 "Low" "Longer"].length = [rowAPending].length :=
  (complete_form_submit_frame 20002 [rowAPending] "A" "Low" "Longer"
    [completeRow rowAPending 20002 "Low" "Longer"] (by decide)).1

theorem foldl_add_getD (l : List (Option Rat)) (a : Rat) :
    l.foldl (fun a o => a + o.getD 0) a = a + (l.map (fun o => o.getD 0)).sum := by
  induction l generalizing a with
  | nil => simp
  | cons x xs ih => simp [ih, add_assoc]

theorem foldl_min_eq (as : List Int) : ∀ (a x : Int), (x = a ∨ x ∈ as) → x ≤ a →
    (∀ y ∈ as, x ≤ y) → as.foldl min a = x := by
  induction as with
  | nil =>
    intro a x hmem hle _
    rcases hmem with rfl | h
    · rfl
    · simp at h
  | cons b bs ih =>
    intro a x hmem hle hub
    rw [List.foldl_cons]
    refine ih (min a b) x ?_ (le_min hle (hub b (by simp)))
      (fun y hy => hub y (by simp [hy]))
    rcases hmem with rfl | hm
    · exact Or.inl (min_eq_left (hub b (by simp))).symm
    · rcases List.mem_cons.mp hm with rfl | hbs
      · exact Or.inl (min_eq_right hle).symm
      · exact Or.inr hbs

theorem min?_eq_of (l : List Int) (x : Int) (hx : x ∈ l) (hub : ∀ y ∈ l, x ≤ y) :
    l.min? = some x := by
  cases l with
  | nil => simp at hx
  | cons a as =>
    simp only [List.min?]
    rw [foldl_min_eq as a x (by simpa using (List.mem_cons.mp hx))
      (hub a (by simp)) (fun y hy => hub y (by simp [hy]))]

theorem datesOnly_filter (L : List Value)
    (hv : ∀ v ∈ L, v = Value.na ∨ ∃ d, v = Value.date d) :
    ∃ ds, datesOnly (L.filter (fun v => v != Value.na)) = some ds
      ∧ ∀ d, d ∈ ds ↔ Value.date d ∈ L := by
  induction L with
  | nil => exact ⟨[], rfl, by simp⟩
  | cons v vs ih =>
    obtain ⟨ds, hds, hiff⟩ := ih (fun w hw => hv w (List.mem_cons_of_mem _ hw))
    rcases hv v (List.mem_cons_self v vs) with rfl | ⟨d, rfl⟩
    · refine ⟨ds, by simp [List.filter_cons, hds], fun d => ?_⟩
      simp [hiff]
    · refine ⟨d :: ds, by simp [List.filter_cons, datesOnly, hds], fun d2 => ?_⟩
      simp [hiff]

/-- C7: suggested daily study hours are absent for an empty collection; 0
when nothing is pending; otherwise the summed effort-to-hours (Low=1.0,
Medium=2.5, High=5.0, unrecognised efforts contributing 0) over the pending
tasks, divided by the days to the nearest pending due date clamped below at
1 (7 days when no pending due date is an actual date), rounded to one
decimal half-to-even. -/
theorem study_time_suggestions_spec (today : Int) (tasks : List TaskRow) :
    (tasks = [] → study_time_suggestions today tasks = Option.none)
    ∧ (tasks ≠ [] →
        (∀ t ∈ tasks, t.status ≠ Value.str "Pending") →
        study_time_suggestions today tasks = some 0)
    ∧ (∀ pending, pending = tasks.filter (fun t => t.status == Value.str "Pending") →
        pending ≠ [] →
        ((∀ t ∈ pending, t.dueDate = Value.na) →
          study_time_suggestions today tasks =
            some (round1 ((pending.map (fun t => (effortMap t.effort).getD 0)).sum / 7)))
        ∧ (∀ dmin, Value.date dmin ∈ pending.map (fun t => t.dueDate) →
            (∀ t ∈ pending, t.dueDate = Value.na ∨ ∃ d, t.dueDate = Value.date d) →
            (∀ d, Value.date d ∈ pending.map (fun t => t.dueDate) → dmin ≤ d) →
            study_time_suggestions today tasks =
              some (round1 ((pending.map (fun t => (effortMap t.effort).getD 0)).sum /
                ((max 1 (dmin - today) : Int) : Rat))))) := by
  refine ⟨fun h => by subst h; rfl, ?_, ?_⟩
  · intro hne hnp
    have hp : tasks.filter (fun t => t.status == Value.str "Pending") = [] :=
      List.filter_eq_nil_iff.mpr (fun t ht => by simpa [beq_iff_eq] using hnp t ht)
    simp [study_time_suggestions, List.isEmpty_iff, hne, hp]
  · intro pending hpend hne
    have htne : tasks ≠ [] := fun h => hne (by simp [hpend, h])
    have heval : ∀ divisor : Int,
        ((datesOnly ((pending.map (fun t => t.dueDate)).filter
          (fun v => v != Value.na))).bind List.min? = Option.none → divisor = 7) →
        (∀ nd, (datesOnly ((pending.map (fun t => t.dueDate)).filter
          (fun v => v != Value.na))).bind List.min? = some nd →
            divisor = max 1 (nd - today)) →
        study_time_suggestions today tasks =
          some (round1 ((pending.map (fun t => (effortMap t.effort).getD 0)).sum /
            (divisor : Rat))) := by
      intro divisor h7 hmin
      simp only [study_time_suggestions]
      rw [if_neg (by simpa [List.isEmpty_iff] using htne)]
      rw [← hpend, if_neg (by simpa [List.isEmpty_iff] using hne)]
      rw [foldl_add_getD, List.map_map, zero_add]
      cases hb : (datesOnly ((pending.map (fun t => t.dueDate)).filter
          (fun v => v != Value.na))).bind List.min? with
      | none => rw [h7 hb]; simp [Function.comp_def]
      | some nd => rw [hmin nd hb]; simp [Function.comp_def]
    constructor
    · intro hna
      have hf : (pending.map (fun t => t.dueDate)).filter (fun v => v != Value.na) = [] := by
        apply List.filter_eq_nil_iff.mpr
        intro v hv
        obtain ⟨t, ht, rfl⟩ := List.mem_map.mp hv
        simp [hna t ht]
      refine heval 7 (fun _ => rfl) (fun nd hnd => ?_)
      rw [hf] at hnd
      simp [datesOnly] at hnd
    · intro dmin hmem hdates hub
      have hd : ∀ v ∈ pending.map (fun t => t.dueDate),
          v = Value.na ∨ ∃ d, v = Value.date d := by
        intro v hv
        obtain ⟨t, ht, rfl⟩ := List.mem_map.mp hv
        exact hdates t ht
      obtain ⟨ds, hds, hiff⟩ := datesOnly_filter _ hd
      have hm : ds.min? = some dmin :=
        min?_eq_of ds dmin ((hiff dmin).mpr hmem) (fun y hy => hub y ((hiff y).mp hy))
      refine heval (max 1 (dmin - today)) (fun hc => ?_) (fun nd hnd => ?_)
      · rw [hds] at hc; simp [hm] at hc
      · rw [hds] at hnd
        rw [show ((some ds).bind List.min? : Option Int) = ds.min? from rfl, hm] at hnd
        obtain rfl : dmin = nd := Option.some_inj.mp hnd
        rfl

/-- C7 witness: a single pending high-effort task due in 3 days suggests
1.7 hours per day; only completed tasks suggest 0; no tasks suggest
nothing. -/
theorem study_time_suggestions_spec_witness :
    study_time_suggestions 20002 [rowAPending] = some ((17 : Rat) / 10)
    ∧ study_time_suggestions 20002 [rowACompleted] = some 0
    ∧ study_time_suggestions 20002 [] = Option.none := by
  refine ⟨?_, ?_, (study_time_suggestions_spec 20002 []).1 rfl⟩
  · have h := ((study_time_suggestions_spec 20002 [rowAPending]).2.2 [rowAPending]
      (by decide) (by decide)).2 20005 (by decide)
      (by intro t ht; rcases List.mem_singleton.mp ht with rfl
          exact Or.inr ⟨20005, rfl⟩)
      (by intro d hd; simp [rowAPending, rowACompleted] at hd; omega)
    rw [h]
    norm_num [round1, halfEvenRound, rowAPending, rowACompleted, effortMap]
  · exact (study_time_suggestions_spec 20002 [rowACompleted]).2.1 (by decide)
      (by intro t ht; rcases List.mem_singleton.mp ht with rfl; decide)

theorem map_eq_self_of {α : Type} {l : List α} {f : α → α} (h : ∀ x ∈ l, f x = x) :
    l.map f = l := by
  induction l with
  | nil => rfl
  | cons a as ih => simp [h a (by simp), ih (fun x hx => h x (by simp [hx]))]

theorem lookupFile_setFile (fs : Files) (k : String) (df : DataFrame) :
    lookupFile (setFile fs k df) k = some df := by
  simp [lookupFile, setFile, List.find?]

theorem find_isSome_of_mem (df : DataFrame) (c : String) (h : c ∈ dfNames df) :
    (df.find? (fun p => p.1 == c)).isSome = true := by
  rw [List.find?_isSome]
  obtain ⟨p, hp, rfl⟩ := List.mem_map.mp h
  exact ⟨p, hp, beq_self_eq_true p.1⟩

theorem find_eq_none_of_not_mem (df : DataFrame) (c : String) (h : ¬ c ∈ dfNames df) :
    df.find? (fun p => p.1 == c) = Option.none := by
  rw [List.find?_eq_none]
  intro p hp hbeq
  exact h (List.mem_map.mpr ⟨p, hp, eq_of_beq hbeq⟩)

theorem getCol_append_single (df : DataFrame) (c : String) (col : List Value)
    (h : ¬ c ∈ dfNames df) : getCol (df ++ [(c, col)]) c = col := by
  simp [getCol, List.find?_append, find_eq_none_of_not_mem df c h, List.find?]

theorem getCol_append_of_mem (df : DataFrame) (c : String) (x : String × List Value)
    (h : c ∈ dfNames df) : getCol (df ++ [x]) c = getCol df c := by
  have hs := find_isSome_of_mem df c h
  cases hf : df.find? (fun p => p.1 == c) with
  | none => rw [hf] at hs; simp at hs
  | some p => simp [getCol, List.find?_append, hf]

theorem mem_dfNames_append (df : DataFrame) (c : String) (x : String × List Value)
    (h : c ∈ dfNames df) : c ∈ dfNames (df ++ [x]) := by
  simp only [dfNames, List.map_append]
  exact List.mem_append_left _ h

theorem getCol_ensureCols_present (cs : List String) (df : DataFrame) (c : String)
    (h : c ∈ dfNames df) : getCol (ensureCols df cs) c = getCol df c := by
  induction cs generalizing df with
  | nil => rfl
  | cons c2 cs2 ih =>
    simp only [ensureCols]
    by_cases h2 : c2 ∈ dfNames df
    · rw [if_pos h2]; exact ih df h
    · rw [if_neg h2, ih _ (mem_dfNames_append df c _ h), getCol_append_of_mem df c _ h]

theorem getCol_ensureCols_missing (cs : List String) (df : DataFrame) (c : String)
    (hnot : ¬ c ∈ dfNames df) (hin : c ∈ cs) :
    ∃ n, getCol (ensureCols df cs) c = List.replicate n Value.na := by
  induction cs generalizing df with
  | nil => simp at hin
  | cons c2 cs2 ih =>
    simp only [ensureCols]
    by_cases hceq : c2 = c
    · subst hceq
      rw [if_neg hnot]
      refine ⟨dfHeight df, ?_⟩
      have hmem : c2 ∈ dfNames (df ++ [(c2, List.replicate (dfHeight df) Value.na)]) := by
        simp [dfNames]
      rw [getCol_ensureCols_present cs2 _ c2 hmem, getCol_append_single df c2 _ hnot]
    · have hin2 : c ∈ cs2 := by
        rcases List.mem_cons.mp hin with h | h
        · exact absurd h.symm hceq
        · exact h
      by_cases h2 : c2 ∈ dfNames df
      · rw [if_pos h2]; exact ih df hnot hin2
      · rw [if_neg h2]
        refine ih _ ?_ hin2
        intro hc
        simp only [dfNames, List.map_append] at hc
        rcases List.mem_append.mp hc with h | h
        · exact hnot h
        · simp at h; exact hceq h.symm

theorem dfNames_map_read (df : DataFrame) :
    dfNames (df.map (fun p => (p.1, readCsvCol p.2))) = dfNames df := by
  simp [dfNames, List.map_map, Function.comp_def]

theorem getCol_cons (x : String × List Value) (l : DataFrame) (c : String) :
    getCol (x :: l) c = if (x.1 == c) = true then x.2 else getCol l c := by
  simp only [getCol, List.find?]
  cases h : x.1 == c
  · simp
  · simp

theorem getCol_map_norm (df : DataFrame) (name c : String) :
    getCol (df.map (fun p => if p.1 == name then (p.1, toDatetimeCol p.2) else p)) c =
      getCol df c ∨
    getCol (df.map (fun p => if p.1 == name then (p.1, toDatetimeCol p.2) else p)) c =
      toDatetimeCol (getCol df c) := by
  induction df with
  | nil => left; rfl
  | cons p ps ih =>
    rw [List.map_cons, getCol_cons, getCol_cons]
    have hfst : (if (p.1 == name) = true then (p.1, toDatetimeCol p.2) else p).1 = p.1 := by
      split <;> rfl
    rw [hfst]
    by_cases hc : (p.1 == c) = true
    · rw [if_pos hc, if_pos hc]
      by_cases hn : (p.1 == name) = true
      · right
        rw [if_pos hn]
      · left
        rw [if_neg hn]
    · rw [if_neg hc, if_neg hc]
      exact ih

theorem getCol_normalizeDateCol (df : DataFrame) (name c : String) :
    getCol (normalizeDateCol df name) c = getCol df c ∨
    getCol (normalizeDateCol df name) c = toDatetimeCol (getCol df c) := by
  rw [normalizeDateCol]
  by_cases hdup : (df.filter (fun p => p.1 == name)).length ≤ 1
  · rw [if_pos hdup]
    exact getCol_map_norm df name c
  · rw [if_neg hdup]
    left
    rfl

theorem toDatetimeCol_replicate_na (n : Nat) :
    toDatetimeCol (List.replicate n Value.na) = List.replicate n Value.na := by
  have : (List.replicate n Value.na).all cellDateParseable = true := by
    rw [List.all_eq_true]
    intro v hv
    rw [List.eq_of_mem_replicate hv]
    rfl
  simp only [toDatetimeCol, this, if_true]
  apply map_eq_self_of
  intro v hv
  rw [List.eq_of_mem_replicate hv]

theorem getD_replicate_na (n i : Nat) :
    (List.replicate n Value.na).getD i Value.na = Value.na := by
  rw [List.getD_eq_getElem?_getD, List.getElem?_replicate]
  split <;> rfl

theorem getField_rowAt (df : DataFrame) (i : Nat) (c : String) (hc : c ∈ taskCols) :
    getField (rowAt df i) c = (getCol df c).getD i Value.na := by
  simp only [taskCols, List.mem_cons, List.not_mem_nil, or_false] at hc
  rcases hc with rfl | rfl | rfl | rfl | rfl | rfl | rfl | rfl | rfl | rfl | rfl | rfl | rfl <;>
    simp [getField, rowAt]

theorem stringSurvives_spec (s : String) (hs : stringSurvives s = true) :
    NA_SENTINELS.contains s = false ∧ toIntQ s = Option.none ∧
    boolQ s = Option.none ∧ toFloatQ s = Option.none := by
  simp only [stringSurvives, Bool.and_eq_true, Bool.not_eq_true',
    Option.isNone_iff_eq_none] at hs
  obtain ⟨⟨⟨⟨⟨⟨⟨⟨⟨h1, h2⟩, h3⟩, h4⟩, h5⟩, h6⟩, h7⟩, h8⟩, h9⟩, h10⟩ := hs
  exact ⟨h1, h2, h3, h4⟩

theorem naMapCell_str_of_not_sentinel {s : String}
    (h : NA_SENTINELS.contains s = false) : naMapCell (Value.str s) = Value.str s := by
  simp only [naMapCell, h]
  simp

theorem readCsvCol_eq_self (col : List Value)
    (h : ∀ v ∈ col, v = Value.na ∨ ∃ s, v = Value.str s ∧ stringSurvives s = true) :
    readCsvCol col = col := by
  have hmap : col.map naMapCell = col := by
    apply map_eq_self_of
    intro v hv
    rcases h v hv with rfl | ⟨s, rfl, hs⟩
    · rfl
    · exact naMapCell_str_of_not_sentinel (stringSurvives_spec s hs).1
  simp only [readCsvCol]
  rw [hmap]
  by_cases hstr : ∃ s, Value.str s ∈ col
  · obtain ⟨s0, hs0⟩ := hstr
    have hs0p : stringSurvives s0 = true := by
      rcases h _ hs0 with h' | ⟨s, heq, hs⟩
      · exact absurd h' (by simp)
      · obtain rfl : s0 = s := by simpa using heq
        exact hs
    obtain ⟨-, hi0, hb0, hf0⟩ := stringSurvives_spec s0 hs0p
    have hni : ¬ col.all cellIntParseable = true := by
      intro hall
      have := List.all_eq_true.mp hall _ hs0
      simp [cellIntParseable, hi0] at this
    have hnb : ¬ col.all cellBoolParseable = true := by
      intro hall
      have := List.all_eq_true.mp hall _ hs0
      simp [cellBoolParseable, hb0] at this
    have hnf : ¬ col.all cellFloatParseable = true := by
      intro hall
      have := List.all_eq_true.mp hall _ hs0
      simp [cellFloatParseable, hf0] at this
    rw [if_neg hni, if_neg hnb, if_neg hnf]
  · have hna : ∀ v ∈ col, v = Value.na := by
      intro v hv
      rcases h v hv with rfl | ⟨s, rfl, -⟩
      · rfl
      · exact absurd ⟨s, hv⟩ hstr
    have hall : col.all cellIntParseable = true := by
      rw [List.all_eq_true]
      intro v hv
      rw [hna v hv]
      rfl
    rw [if_pos hall]
    apply map_eq_self_of
    intro v hv
    rw [hna v hv]

theorem readCsvCol_int_roundtrip (col : List Value)
    (h : ∀ v ∈ col, intCellOK v = true) :
    readCsvCol (col.map serializeCell) = col := by
  have hcell : ∀ v ∈ col, ∃ i, v = Value.int i ∧ toIntQ (toString i) = some i ∧
      NA_SENTINELS.contains (toString i) = false := by
    intro v hv
    have hok := h v hv
    cases v with
    | na => simp [intCellOK] at hok
    | str s => simp [intCellOK] at hok
    | int i =>
      simp only [intCellOK, Bool.and_eq_true, Bool.not_eq_true', beq_iff_eq] at hok
      exact ⟨i, rfl, hok.1, hok.2⟩
    | float q => simp [intCellOK] at hok
    | bool b => simp [intCellOK] at hok
    | date d => simp [intCellOK] at hok
  have hser : (col.map serializeCell).map naMapCell = col.map serializeCell := by
    apply map_eq_self_of
    intro v hv
    obtain ⟨w, hw, rfl⟩ := List.mem_map.mp hv
    obtain ⟨i, rfl, -, hsi⟩ := hcell w hw
    exact naMapCell_str_of_not_sentinel hsi
  simp only [readCsvCol]
  rw [hser]
  have hall : (col.map serializeCell).all cellIntParseable = true := by
    rw [List.all_eq_true]
    intro v hv
    obtain ⟨w, hw, rfl⟩ := List.mem_map.mp hv
    obtain ⟨i, rfl, hpi, -⟩ := hcell w hw
    simp [serializeCell, cellIntParseable, hpi]
  rw [if_pos hall]
  have hnone : ((col.map serializeCell).any (fun v => v == Value.na)) = false := by
    cases hany : (col.map serializeCell).any (fun v => v == Value.na)
    · rfl
    · obtain ⟨v, hv, hvna⟩ := List.any_eq_true.mp hany
      obtain ⟨w, hw, rfl⟩ := List.mem_map.mp hv
      obtain ⟨i, rfl, -, -⟩ := hcell w hw
      simp [serializeCell] at hvna
  simp only [hnone]
  rw [List.map_map]
  apply map_eq_self_of
  intro v hv
  obtain ⟨i, rfl, hpi, -⟩ := hcell v hv
  simp [Function.comp, serializeCell, hpi]

theorem wfColumn_false_roundtrip (col : List Value) (h : wfColumn false col = true) :
    readCsvCol (col.map serializeCell) = col := by
  have h2 : (col.all intCellOK || col.all strCellOK) = true := by
    simpa [wfColumn] using h
  rcases Bool.or_eq_true_iff.mp h2 with hint | hstr
  · exact readCsvCol_int_roundtrip col (List.all_eq_true.mp hint)
  · have hcells := List.all_eq_true.mp hstr
    have hser : col.map serializeCell = col := by
      apply map_eq_self_of
      intro v hv
      have hok := hcells v hv
      cases v with
      | na => rfl
      | str s =>
        simp only [strCellOK, Bool.and_eq_true, Bool.not_eq_true', beq_iff_eq] at hok
        simp [serializeCell, hok.1]
      | int i => simp [strCellOK] at hok
      | float q => simp [strCellOK] at hok
      | bool b => simp [strCellOK] at hok
      | date d => simp [strCellOK] at hok
    rw [hser]
    apply readCsvCol_eq_self
    intro v hv
    have hok := hcells v hv
    cases v with
    | na => exact Or.inl rfl
    | str s =>
      simp only [strCellOK, Bool.and_eq_true, Bool.not_eq_true', beq_iff_eq] at hok
      exact Or.inr ⟨s, rfl, hok.2⟩
    | int i => simp [strCellOK] at hok
    | float q => simp [strCellOK] at hok
    | bool b => simp [strCellOK] at hok
    | date d => simp [strCellOK] at hok

theorem wfColumn_true_read (col : List Value) (h : wfColumn true col = true) :
    readCsvCol (col.map serializeCell) = col.map serializeCell := by
  have hcells := List.all_eq_true.mp (show col.all dateCellOK = true by simpa [wfColumn] using h)
  apply readCsvCol_eq_self
  intro v hv
  obtain ⟨w, hw, rfl⟩ := List.mem_map.mp hv
  have hok := hcells w hw
  cases w with
  | na => exact Or.inl rfl
  | str s => simp [dateCellOK] at hok
  | int i => simp [dateCellOK] at hok
  | float q => simp [dateCellOK] at hok
  | bool b => simp [dateCellOK] at hok
  | date d =>
    simp only [dateCellOK, Bool.and_eq_true, beq_iff_eq] at hok
    exact Or.inr ⟨isoDate d, rfl, hok.2⟩

theorem wfColumn_true_datetime (col : List Value) (h : wfColumn true col = true) :
    toDatetimeCol (col.map serializeCell) = col := by
  have hcells := List.all_eq_true.mp (show col.all dateCellOK = true by simpa [wfColumn] using h)
  have hall : (col.map serializeCell).all cellDateParseable = true := by
    rw [List.all_eq_true]
    intro v hv
    obtain ⟨w, hw, rfl⟩ := List.mem_map.mp hv
    have hok := hcells w hw
    cases w with
    | na => rfl
    | str s => simp [dateCellOK] at hok
    | int i => simp [dateCellOK] at hok
    | float q => simp [dateCellOK] at hok
    | bool b => simp [dateCellOK] at hok
    | date d =>
      simp only [dateCellOK, Bool.and_eq_true, beq_iff_eq] at hok
      simp [serializeCell, cellDateParseable, hok.1]
  rw [toDatetimeCol, if_pos hall, List.map_map]
  apply map_eq_self_of
  intro v hv
  have hok := hcells v hv
  cases v with
  | na => rfl
  | str s => simp [dateCellOK] at hok
  | int i => simp [dateCellOK] at hok
  | float q => simp [dateCellOK] at hok
  | bool b => simp [dateCellOK] at hok
  | date d =>
    simp only [dateCellOK, Bool.and_eq_true, beq_iff_eq] at hok
    simp [Function.comp, serializeCell, hok.1]

theorem map_serialize_comm (f : TaskRow → Value) (tasks : List TaskRow) :
    tasks.map (fun t => serializeCell (f t)) = (tasks.map f).map serializeCell := by
  rw [List.map_map]
  rfl

theorem dfTaskRows_cols (tasks : List TaskRow) :
    dfTaskRows
      [("Task Name", tasks.map TaskRow.taskName), ("Course", tasks.map TaskRow.course),
       ("Due Date", tasks.map TaskRow.dueDate), ("Effort", tasks.map TaskRow.effort),
       ("Type", tasks.map TaskRow.taskType),
       ("User Priority", tasks.map TaskRow.userPriority),
       ("AI Priority", tasks.map TaskRow.aiPriority),
       ("Status", tasks.map TaskRow.status), ("Keywords", tasks.map TaskRow.keywords),
       ("Days Until Due", tasks.map TaskRow.daysUntilDue),
       ("Actual_AI_Priority", tasks.map TaskRow.actualAiPriority),
       ("Actual_Effort_Rating", tasks.map TaskRow.actualEffortRating),
       ("Completed Date", tasks.map TaskRow.completedDate)] = tasks := by
  apply List.ext_getElem?
  intro n
  simp only [dfTaskRows, dfHeight, List.length_map]
  rw [List.getElem?_map]
  by_cases hn : n < tasks.length
  · rw [List.getElem?_range hn, List.getElem?_eq_getElem hn]
    have hgd : ∀ (f : TaskRow → Value), (tasks.map f).getD n Value.na = f tasks[n] := by
      intro f
      rw [List.getD_eq_getElem?_getD, List.getElem?_map, List.getElem?_eq_getElem hn]
      rfl
    simp only [Option.map_some']
    congr 1
    simp [rowAt, getCol, List.find?, hgd, List.getElem?_eq_getElem hn]
  · have h1 : (List.range tasks.length)[n]? = Option.none :=
      List.getElem?_eq_none (by simpa using Nat.le_of_not_lt hn)
    rw [h1, List.getElem?_eq_none (Nat.le_of_not_lt hn)]
    rfl

/-- C3 counterexample: a task whose Course field is the string "5" does not
round trip — the CSV re-inference loads the course column back as the
integer 5, so the loaded collection differs from the saved one. -/
theorem save_load_counterexample :
    load_tasks_for_user (save_tasks_for_user [] "u" [c3Row]) "u" =
      [{ c3Row with course := Value.int 5 }]
    ∧ load_tasks_for_user (save_tasks_for_user [] "u" [c3Row]) "u" ≠ [c3Row] := by
  decide

/-- C3 (amended): `save_tasks_for_user` followed by `load_tasks_for_user`
returns the same collection — same tasks, same order, same field values —
provided the cells survive CSV re-inference: strings non-empty and not
integer-formatted, integer and date cells printing and parsing back to
themselves, and date columns holding only dates or missing values
(`wfTasks`). An integer-formatted string comes back as an integer and an
empty string as a missing value, which is what the counterexample
exhibits. -/
theorem save_load_roundtrip (fs : Files) (email : String) (tasks : List TaskRow)
    (hwf : wfTasks tasks = true) :
    load_tasks_for_user (save_tasks_for_user fs email tasks) email = tasks := by
  simp only [wfTasks, Bool.and_eq_true] at hwf
  obtain ⟨⟨⟨⟨⟨⟨⟨⟨⟨⟨⟨⟨h1, h2⟩, h3⟩, h4⟩, h5⟩, h6⟩, h7⟩, h8⟩, h9⟩, h10⟩, h11⟩, h12⟩, h13⟩ :=
    hwf
  have w1 : readCsvCol (tasks.map (fun t => serializeCell t.taskName)) =
      tasks.map TaskRow.taskName := by
    rw [map_serialize_comm]
    exact wfColumn_false_roundtrip _ h1
  have w2 : readCsvCol (tasks.map (fun t => serializeCell t.course)) =
      tasks.map TaskRow.course := by
    rw [map_serialize_comm]
    exact wfColumn_false_roundtrip _ h2
  have w3 : readCsvCol (tasks.map (fun t => serializeCell t.dueDate)) =
      tasks.map (fun t => serializeCell t.dueDate) := by
    rw [map_serialize_comm]
    exact wfColumn_true_read _ h3
  have w4 : readCsvCol (tasks.map (fun t => serializeCell t.effort)) =
      tasks.map TaskRow.effort := by
    rw [map_serialize_comm]
    exact wfColumn_false_roundtrip _ h4
  have w5 : readCsvCol (tasks.map (fun t => serializeCell t.taskType)) =
      tasks.map TaskRow.taskType := by
    rw [map_serialize_comm]
    exact wfColumn_false_roundtrip _ h5
  have w6 : readCsvCol (tasks.map (fun t => serializeCell t.userPriority)) =
      tasks.map TaskRow.userPriority := by
    rw [map_serialize_comm]
    exact wfColumn_false_roundtrip _ h6
  have w7 : readCsvCol (tasks.map (fun t => serializeCell t.aiPriority)) =
      tasks.map TaskRow.aiPriority := by
    rw [map_serialize_comm]
    exact wfColumn_false_roundtrip _ h7
  have w8 : readCsvCol (tasks.map (fun t => serializeCell t.status)) =
      tasks.map TaskRow.status := by
    rw [map_serialize_comm]
    exact wfColumn_false_roundtrip _ h8
  have w9 : readCsvCol (tasks.map (fun t => serializeCell t.keywords)) =
      tasks.map TaskRow.keywords := by
    rw [map_serialize_comm]
    exact wfColumn_false_roundtrip _ h9
  have w10 : readCsvCol (tasks.map (fun t => serializeCell t.daysUntilDue)) =
      tasks.map TaskRow.daysUntilDue := by
    rw [map_serialize_comm]
    exact wfColumn_false_roundtrip _ h10
  have w11 : readCsvCol (tasks.map (fun t => serializeCell t.actualAiPriority)) =
      tasks.map TaskRow.actualAiPriority := by
    rw [map_serialize_comm]
    exact wfColumn_false_roundtrip _ h11
  have w12 : readCsvCol (tasks.map (fun t => serializeCell t.actualEffortRating)) =
      tasks.map TaskRow.actualEffortRating := by
    rw [map_serialize_comm]
    exact wfColumn_false_roundtrip _ h12
  have w13 : readCsvCol (tasks.map (fun t => serializeCell t.completedDate)) =
      tasks.map (fun t => serializeCell t.completedDate) := by
    rw [map_serialize_comm]
    exact wfColumn_true_read _ h13
  have wd3 : toDatetimeCol (tasks.map (fun t => serializeCell t.dueDate)) =
      tasks.map TaskRow.dueDate := by
    rw [map_serialize_comm]
    exact wfColumn_true_datetime _ h3
  have wd13 : toDatetimeCol (tasks.map (fun t => serializeCell t.completedDate)) =
      tasks.map TaskRow.completedDate := by
    rw [map_serialize_comm]
    exact wfColumn_true_datetime _ h13
  simp only [save_tasks_for_user, load_tasks_for_user, lookupFile_setFile]
  simp only [tasksToDf, List.map_cons, List.map_nil]
  rw [w1, w2, w3, w4, w5, w6, w7, w8, w9, w10, w11, w12, w13]
  simp [ensureCols, taskCols, dfNames, normalizeDateCol, List.filter_cons]
  rw [wd3, wd13]
  exact dfTaskRows_cols tasks

/-- C3 witness: a concrete well-formed task round trips through its user
file. -/
theorem save_load_roundtrip_witness :
    wfTasks [rowAPending] = true
    ∧ load_tasks_for_user (save_tasks_for_user [] "w@x.com" [rowAPending]) "w@x.com" =
        [rowAPending] :=
  ⟨by decide, save_load_roundtrip [] "w@x.com" [rowAPending] (by decide)⟩

/-- C8 counterexample: a stored tasks file having only a `Task Name` column
(12 expected columns missing) does not load as the empty collection the
claim requires — the handler fills the missing columns with empty values
and returns the row. -/
theorem load_tasks_missing_columns_counterexample :
    load_tasks_for_user c8fs "u@x.com" ≠ []
    ∧ load_tasks_for_user c8fs "u@x.com" =
      [{ taskName := Value.str "X", course := Value.na, dueDate := Value.na,
         effort := Value.na, taskType := Value.na, userPriority := Value.na,
         aiPriority := Value.na, status := Value.na, keywords := Value.na,
         daysUntilDue := Value.na, actualAiPriority := Value.na,
         actualEffortRating := Value.na, completedDate := Value.na }] := by
  decide

/-- C8 (amended): loading never fails: a missing tasks file loads as the
empty collection; the credential loader returns the empty credential set
when its file is missing or lacks the `email`/`password` columns; and a
tasks file that is missing expected columns is loaded by filling each
missing column with the empty value, so every returned record has all
expected fields (it is not replaced by an empty collection). -/
theorem load_tasks_for_user_spec (fs : Files) (email : String) :
    (lookupFile fs (get_tasks_filename_for_user email) = Option.none →
      load_tasks_for_user fs email = [])
    ∧ load_users Option.none = []
    ∧ (∀ df, ¬ ("email" ∈ df.map Prod.fst ∧ "password" ∈ df.map Prod.fst) →
        load_users (some df) = [])
    ∧ (∀ df c, lookupFile fs (get_tasks_filename_for_user email) = some df →
        c ∈ taskCols → ¬ c ∈ dfNames df →
        ∀ r ∈ load_tasks_for_user fs email, getField r c = Value.na) := by
  refine ⟨fun h => by simp [load_tasks_for_user, h], rfl,
    fun df h => by simp only [load_users]; rw [if_neg h], ?_⟩
  intro df c hdf hc hnc r hr
  simp only [load_tasks_for_user, hdf] at hr
  obtain ⟨n2, hcol2⟩ := getCol_ensureCols_missing taskCols
    (df.map (fun p => (p.1, readCsvCol p.2))) c (by rwa [dfNames_map_read]) hc
  have hcol3 : ∃ n, getCol (normalizeDateCol
      (ensureCols (df.map (fun p => (p.1, readCsvCol p.2))) taskCols) "Due Date") c =
      List.replicate n Value.na := by
    rcases getCol_normalizeDateCol
      (ensureCols (df.map (fun p => (p.1, readCsvCol p.2))) taskCols) "Due Date" c with
      h3 | h3
    · exact ⟨n2, by rw [h3, hcol2]⟩
    · exact ⟨n2, by rw [h3, hcol2, toDatetimeCol_replicate_na]⟩
  obtain ⟨n3, hcol3⟩ := hcol3
  have hcol4 : ∃ n, getCol (normalizeDateCol (normalizeDateCol
      (ensureCols (df.map (fun p => (p.1, readCsvCol p.2))) taskCols) "Due Date")
      "Completed Date") c = List.replicate n Value.na := by
    rcases getCol_normalizeDateCol (normalizeDateCol
      (ensureCols (df.map (fun p => (p.1, readCsvCol p.2))) taskCols) "Due Date")
      "Completed Date" c with h4 | h4
    · exact ⟨n3, by rw [h4, hcol3]⟩
    · exact ⟨n3, by rw [h4, hcol3, toDatetimeCol_replicate_na]⟩
  obtain ⟨n4, hcol4⟩ := hcol4
  simp only [dfTaskRows] at hr
  obtain ⟨i, -, rfl⟩ := List.mem_map.mp hr
  rw [getField_rowAt _ _ _ hc, hcol4, getD_replicate_na]

/-- C8 witness: a missing file loads as empty, and the row loaded from the
file with 12 missing columns has an empty Course field. -/
theorem load_tasks_for_user_spec_witness :
    load_tasks_for_user [] "nobody@x.com" = []
    ∧ getField
      { taskName := Value.str "X", course := Value.na, dueDate := Value.na,
        effort := Value.na, taskType := Value.na, userPriority := Value.na,
        aiPriority := Value.na, status := Value.na, keywords := Value.na,
        daysUntilDue := Value.na, actualAiPriority := Value.na,
        actualEffortRating := Value.na, completedDate := Value.na } "Course"
      = Value.na := by
  constructor
  · exact (load_tasks_for_user_spec [] "nobody@x.com").1 (by decide)
  · exact (load_tasks_for_user_spec c8fs "u@x.com").2.2.2 c8df "Course" (by decide)
      (by decide) (by decide) _ (by decide)
